import Mathlib

/-!
Verification of the TabulaRAG frontend core: the job-polling loop of the
upload page, the highlight-projection algorithm of the highlight view, the
slice-request clamping of the API client, and the cell-marking logic of the
data-table renderer.  All definitions are shallow embeddings of the
TypeScript source (src/unnamed/part_001 .. part_004).
-/

/-- A JavaScript number as it occurs in the embedded code paths: an exact
integer, positive or negative infinity (produced by `Math.min()` /
`Math.max()` on an empty spread), or NaN. -/
inductive JsNum where
  | fin : Int → JsNum
  | posInf : JsNum
  | negInf : JsNum
  | nan : JsNum
deriving DecidableEq, Repr

/-- JavaScript `Math.max(c, x)` for an integer constant `c`. -/
def jsMaxC (c : Int) : JsNum → JsNum
  | .fin z => .fin (max c z)
  | .posInf => .posInf
  | .negInf => .fin c
  | .nan => .nan

/-- JavaScript `x - c` for an integer constant `c`. -/
def jsSubC (x : JsNum) (c : Int) : JsNum :=
  match x with
  | .fin z => .fin (z - c)
  | .posInf => .posInf
  | .negInf => .negInf
  | .nan => .nan

/-- JavaScript `x + c` for an integer constant `c`. -/
def jsAddC (x : JsNum) (c : Int) : JsNum :=
  match x with
  | .fin z => .fin (z + c)
  | .posInf => .posInf
  | .negInf => .negInf
  | .nan => .nan

/-- JavaScript subtraction `x - y` on extended numbers. -/
def jsSub : JsNum → JsNum → JsNum
  | .nan, _ => .nan
  | _, .nan => .nan
  | .fin a, .fin b => .fin (a - b)
  | .fin _, .posInf => .negInf
  | .fin _, .negInf => .posInf
  | .posInf, .fin _ => .posInf
  | .posInf, .negInf => .posInf
  | .posInf, .posInf => .nan
  | .negInf, .fin _ => .negInf
  | .negInf, .posInf => .negInf
  | .negInf, .negInf => .nan

/-- JavaScript `Math.min(...rows)` over an integer list (spread of an
array); the empty spread yields `Infinity`. -/
def jsMinList : List Int → JsNum
  | [] => .posInf
  | x :: xs => .fin (xs.foldl min x)

/-- JavaScript `Math.max(...rows)` over an integer list (spread of an
array); the empty spread yields `-Infinity`. -/
def jsMaxList : List Int → JsNum
  | [] => .negInf
  | x :: xs => .fin (xs.foldl max x)

/-- The request issued by `getSlice` in src/unnamed/part_004: the table id,
the clamped `offset` and `limit` query parameters, and the optional `cols`
query parameter (set only when a non-empty column list was passed). -/
structure SliceReq where
  tableId : String
  offset : JsNum
  limit : JsNum
  cols : Option (List String)
deriving DecidableEq, Repr

/-- Embedding of `getSlice(tableId, rowFrom, rowTo, cols?)` from
src/unnamed/part_004: `offset = Math.max(0, rowFrom)`,
`limit = Math.max(1, rowTo - rowFrom)`, and the `cols` parameter is set only
`if (cols && cols.length)`. -/
def getSliceReq (tableId : String) (rowFrom rowTo : JsNum)
    (cols : Option (List String)) : SliceReq :=
  { tableId := tableId
    offset := jsMaxC 0 rowFrom
    limit := jsMaxC 1 (jsSub rowTo rowFrom)
    cols := match cols with
      | some cs => if cs.isEmpty then none else some cs
      | none => none }

/-- The `range` object of an evidence entry of a highlight payload:
`{ rows?, cols? }`. -/
structure CiteRange where
  rows : Option (List Int)
  cols : Option (List String)
deriving DecidableEq, Repr

/-- One evidence entry of a highlight payload: `{ range? }`. -/
structure Evidence where
  range : Option CiteRange
deriving DecidableEq, Repr

/-- A highlight payload as fetched by `getHighlight`:
`{ table_id, evidence?, rows?, cols? }`. -/
structure Highlight where
  table_id : String
  evidence : Option (List Evidence)
  rows : Option (List Int)
  cols : Option (List String)
deriving DecidableEq, Repr

/-- `const citations = h.evidence || []` from src/unnamed/part_002. -/
def citationsOf (h : Highlight) : List Evidence :=
  h.evidence.getD []

/-- `citations[0]?.range?.rows` from src/unnamed/part_002: the rows carried
by the first evidence entry, if any. -/
def firstRangeRows (h : Highlight) : Option (List Int) :=
  ((citationsOf h).head?.bind (fun e => e.range)).bind (fun r => r.rows)

/-- `citations[0]?.range?.cols` from src/unnamed/part_002. -/
def firstRangeCols (h : Highlight) : Option (List String) :=
  ((citationsOf h).head?.bind (fun e => e.range)).bind (fun r => r.cols)

/-- `const rows = first?.range?.rows || h.rows || [0]` from
src/unnamed/part_002.  An array value (even an empty one) is truthy, so a
fallback is taken only when the field is absent. -/
def resolveRows (h : Highlight) : List Int :=
  (firstRangeRows h).getD (h.rows.getD [0])

/-- `const cols = first?.range?.cols || h.cols || []` from
src/unnamed/part_002. -/
def resolveCols (h : Highlight) : List String :=
  (firstRangeCols h).getD (h.cols.getD [])

/-- `const rowFrom = Math.max(0, Math.min(...rows) - 5)` from
src/unnamed/part_002. -/
def projWindowFrom (h : Highlight) : JsNum :=
  jsMaxC 0 (jsSubC (jsMinList (resolveRows h)) 5)

/-- `const rowTo = Math.max(...rows) + 6` from src/unnamed/part_002. -/
def projWindowTo (h : Highlight) : JsNum :=
  jsAddC (jsMaxList (resolveRows h)) 6

/-- The slice fetch issued by the highlight view,
`getSlice(h.table_id, rowFrom, rowTo, cols.length ? cols : undefined)`
from src/unnamed/part_002. -/
def projectHighlight (h : Highlight) : SliceReq :=
  let cols := resolveCols h
  getSliceReq h.table_id (projWindowFrom h) (projWindowTo h)
    (if cols.isEmpty then none else some cols)

/-- A record of a fetched slice, as consumed by the renderer: a mapping from
column name to cell value, modelled as an association list. -/
def RowRec : Type := List (String × String)

instance : DecidableEq RowRec := by
  unfold RowRec
  infer_instance

/-- The `highlight` prop of `DataTable` in src/unnamed/part_003:
`{ rows: number[]; cols: string[] }`. -/
structure HighlightSet where
  rows : List Int
  cols : List String
deriving DecidableEq, Repr

/-- One rendered table row of `DataTable`: the absolute index shown in the
`#` column (`i + rowOffset`), the row-highlight flag, and for each column
the rendered cell text with its cell-highlight flag. -/
structure RenderedRow where
  rowIndex : Int
  rowHL : Bool
  cells : List (String × String × Bool)
deriving DecidableEq, Repr

/-- `const hlRows = new Set((highlight?.rows || []).map(r => r - rowOffset))`
from src/unnamed/part_003, kept as the list of window-local offsets. -/
def hlRowsLocal (highlight : Option HighlightSet) (rowOffset : Int) : List Int :=
  ((highlight.map (fun hl => hl.rows)).getD []).map (fun r => r - rowOffset)

/-- `const hlCols = new Set(highlight?.cols || [])` from src/unnamed/part_003. -/
def hlColsOf (highlight : Option HighlightSet) : List String :=
  (highlight.map (fun hl => hl.cols)).getD []

/-- Rendering of one `<tr>` of `DataTable` at local index `i`:
`isRowHL = hlRows.has(i)`, the shown index is `i + rowOffset`, and each cell
carries `r[c] ?? ""` with `isCellHL = isRowHL && hlCols.has(c)`. -/
def renderRow (columns : List String) (hlRows : List Int) (hlCols : List String)
    (rowOffset : Int) (i : Nat) (r : RowRec) : RenderedRow :=
  let isRowHL := hlRows.contains ((i : Int))
  { rowIndex := (i : Int) + rowOffset
    rowHL := isRowHL
    cells := columns.map (fun c => (c, (r.lookup c).getD "", isRowHL && hlCols.contains c)) }

/-- The body of `rows.map((r, i) => ...)` from src/unnamed/part_003, with
the running local index made explicit. -/
def renderRowsFrom (columns : List String) (hlRows : List Int) (hlCols : List String)
    (rowOffset : Int) : Nat → List RowRec → List RenderedRow
  | _, [] => []
  | i, r :: rs =>
      renderRow columns hlRows hlCols rowOffset i r ::
        renderRowsFrom columns hlRows hlCols rowOffset (i + 1) rs

/-- Embedding of the `DataTable` component of src/unnamed/part_003: the list
of rendered body rows, one per returned record. -/
def dataTable (columns : List String) (rows : List RowRec)
    (highlight : Option HighlightSet) (rowOffset : Int) : List RenderedRow :=
  renderRowsFrom columns (hlRowsLocal highlight rowOffset) (hlColsOf highlight)
    rowOffset 0 rows

/-- A job record as returned by `getJob` in src/unnamed/part_004:
`{ status, progress, message?, table_id? }`.  `progress` is optional because
the loop reads it as `job.progress ?? 0`. -/
structure Job where
  status : String
  progress : Option Int
  message : Option String
  table_id : Option String
deriving DecidableEq, Repr

/-- `job.status === "done" || job.status === "indexing"` from
src/unnamed/part_001. -/
def jobSucceeded (j : Job) : Bool :=
  j.status == "done" || j.status == "indexing"

/-- `job.message || "Upload failed."` from src/unnamed/part_001: the string
surfaced when a job terminates with status `error`.  JavaScript `||` treats
the empty string as falsy, so an empty message also falls back. -/
def surfacedErrorMessage (message : Option String) : String :=
  match message with
  | some m => if m = "" then "Upload failed." else m
  | none => "Upload failed."

/-- The interim status line
`` `${msg}${job.status} (${job.progress ?? 0}%)` `` from src/unnamed/part_001,
where `msg = job.message ? job.message + " " : ""`. -/
def pollStatusMsg (job : Job) : String :=
  (match job.message with
    | some m => if m = "" then "" else m ++ " "
    | none => "") ++ job.status ++ " (" ++ toString (job.progress.getD 0) ++ "%)"

/-- The preview fetch `getSlice(tableId, 0, 50)` issued by `loadPreview` in
src/unnamed/part_001 (no column restriction). -/
def previewReq (tableId : String) : SliceReq :=
  getSliceReq tableId (.fin 0) (.fin 50) none

/-- The terminal outcome of one run of the `onUpload` polling loop. -/
inductive UploadOutcome where
  | success : Option String → UploadOutcome
  | failed : String → UploadOutcome
  | running : UploadOutcome
deriving DecidableEq, Repr

/-- The observable trace of one run of the `onUpload` polling loop: how many
`getJob` fetches were issued, how many table-list refreshes ran, which
preview slice fetches were triggered, the interim status lines, and the
outcome. -/
structure PollTrace where
  fetches : Nat
  refreshes : Nat
  previews : List SliceReq
  statusMsgs : List String
  outcome : UploadOutcome
deriving DecidableEq, Repr

/-- Embedding of the `while (true)` polling loop of `onUpload` in
src/unnamed/part_001, driven by the list of successive `getJob` results
(`Except.error` is a failed status fetch, whose thrown message reaches the
surrounding `catch` directly).  On `done`/`indexing` the loop refreshes the
table list, triggers `loadPreview(job.table_id)` when a table id is present,
and breaks; on status `error` it throws `job.message || "Upload failed."`;
otherwise it records a status line and polls again. -/
def pollLoop : List (Except String Job) → PollTrace
  | [] => ⟨0, 0, [], [], .running⟩
  | obs :: rest =>
    match obs with
    | .error e => ⟨1, 0, [], [], .failed e⟩
    | .ok job =>
      if jobSucceeded job then
        ⟨1, 1,
          (match job.table_id with
            | some tid => [previewReq tid]
            | none => []),
          [], .success job.table_id⟩
      else if job.status = "error" then
        ⟨1, 0, [], [], .failed (surfacedErrorMessage job.message)⟩
      else
        let t := pollLoop rest
        ⟨t.fetches + 1, t.refreshes, t.previews, pollStatusMsg job :: t.statusMsgs, t.outcome⟩

lemma foldl_min_le_init (xs : List Int) (a : Int) : xs.foldl min a ≤ a := by
  induction xs generalizing a with
  | nil => exact le_refl a
  | cons y ys ih => exact le_trans (ih (min a y)) (min_le_left a y)

lemma foldl_min_le_of_mem (xs : List Int) (a r : Int) (h : r ∈ xs) :
    xs.foldl min a ≤ r := by
  induction xs generalizing a with
  | nil => cases h
  | cons y ys ih =>
    rcases List.mem_cons.mp h with rfl | hmem
    · exact le_trans (foldl_min_le_init ys (min a r)) (min_le_right a r)
    · exact ih (min a y) hmem

lemma foldl_min_eq_or_mem (xs : List Int) (a : Int) :
    xs.foldl min a = a ∨ xs.foldl min a ∈ xs := by
  induction xs generalizing a with
  | nil => exact Or.inl rfl
  | cons y ys ih =>
    rcases ih (min a y) with h | h
    · rcases min_cases a y with ⟨he, _⟩ | ⟨he, _⟩
      · exact Or.inl (by rw [List.foldl_cons, h, he])
      · exact Or.inr (by rw [List.foldl_cons, h, he]; exact List.mem_cons_self y ys)
    · exact Or.inr (List.mem_cons_of_mem y h)

lemma le_foldl_max_init (xs : List Int) (a : Int) : a ≤ xs.foldl max a := by
  induction xs generalizing a with
  | nil => exact le_refl a
  | cons y ys ih => exact le_trans (le_max_left a y) (ih (max a y))

lemma le_foldl_max_of_mem (xs : List Int) (a r : Int) (h : r ∈ xs) :
    r ≤ xs.foldl max a := by
  induction xs generalizing a with
  | nil => cases h
  | cons y ys ih =>
    rcases List.mem_cons.mp h with rfl | hmem
    · exact le_trans (le_max_right a r) (le_foldl_max_init ys (max a r))
    · exact ih (max a y) hmem

lemma foldl_max_eq_or_mem (xs : List Int) (a : Int) :
    xs.foldl max a = a ∨ xs.foldl max a ∈ xs := by
  induction xs generalizing a with
  | nil => exact Or.inl rfl
  | cons y ys ih =>
    rcases ih (max a y) with h | h
    · rcases max_cases a y with ⟨he, _⟩ | ⟨he, _⟩
      · exact Or.inl (by rw [List.foldl_cons, h, he])
      · exact Or.inr (by rw [List.foldl_cons, h, he]; exact List.mem_cons_self y ys)
    · exact Or.inr (List.mem_cons_of_mem y h)

lemma jsMinList_eq (R : List Int) (m : Int) (hmem : m ∈ R)
    (hmin : ∀ r ∈ R, m ≤ r) : jsMinList R = .fin m := by
  cases R with
  | nil => cases hmem
  | cons x xs =>
    have hle : xs.foldl min x ≤ m := by
      rcases List.mem_cons.mp hmem with rfl | hm
      · exact foldl_min_le_init xs m
      · exact foldl_min_le_of_mem xs x m hm
    have hge : m ≤ xs.foldl min x := by
      rcases foldl_min_eq_or_mem xs x with h | h
      · rw [h]; exact hmin x (List.mem_cons_self x xs)
      · exact hmin _ (List.mem_cons_of_mem x h)
    simp only [jsMinList]
    exact congrArg JsNum.fin (le_antisymm hle hge)

lemma jsMaxList_eq (R : List Int) (M : Int) (hmem : M ∈ R)
    (hmax : ∀ r ∈ R, r ≤ M) : jsMaxList R = .fin M := by
  cases R with
  | nil => cases hmem
  | cons x xs =>
    have hle : M ≤ xs.foldl max x := by
      rcases List.mem_cons.mp hmem with rfl | hm
      · exact le_foldl_max_init xs M
      · exact le_foldl_max_of_mem xs x M hm
    have hge : xs.foldl max x ≤ M := by
      rcases foldl_max_eq_or_mem xs x with h | h
      · rw [h]; exact hmax x (List.mem_cons_self x xs)
      · exact hmax _ (List.mem_cons_of_mem x h)
    simp only [jsMaxList]
    exact congrArg JsNum.fin (le_antisymm hge hle)

/-- Claim C1: for a citation whose resolved row set `R` is non-empty (all
entries being absolute, hence non-negative, row indices with minimum `m` and
maximum `M`), the highlight view computes the fetch window as
`rowFrom = max(0, m - 5)` and `rowTo = M + 6`, and every row of `R` lies in
the half-open window `[rowFrom, rowTo)`. -/
theorem highlight_window_bounds (h : Highlight) (R : List Int) (m M : Int)
    (hR : resolveRows h = R)
    (hmem : m ∈ R) (hmin : ∀ r ∈ R, m ≤ r)
    (hMem : M ∈ R) (hMax : ∀ r ∈ R, r ≤ M)
    (hnonneg : ∀ r ∈ R, 0 ≤ r) :
    projWindowFrom h = JsNum.fin (max 0 (m - 5)) ∧
    projWindowTo h = JsNum.fin (M + 6) ∧
    ∀ r ∈ R, max 0 (m - 5) ≤ r ∧ r < M + 6 := by
  have h1 : jsMinList R = .fin m := jsMinList_eq R m hmem hmin
  have h2 : jsMaxList R = .fin M := jsMaxList_eq R M hMem hMax
  refine ⟨?_, ?_, ?_⟩
  · unfold projWindowFrom
    rw [hR, h1]
    rfl
  · unfold projWindowTo
    rw [hR, h2]
    rfl
  · intro r hr
    refine ⟨max_le_iff.mpr ⟨hnonneg r hr, ?_⟩, ?_⟩
    · have := hmin r hr
      omega
    · have := hMax r hr
      omega

/-- Witness for C1: the spec scenario citation with rows `[42]` yields the
window `[37, 48)`. -/
theorem highlight_window_bounds_witness :
    projWindowFrom ⟨"t1", some [⟨some ⟨some [42], some ["amount"]⟩⟩], none, none⟩ =
      JsNum.fin (max 0 (42 - 5)) ∧
    projWindowTo ⟨"t1", some [⟨some ⟨some [42], some ["amount"]⟩⟩], none, none⟩ =
      JsNum.fin (42 + 6) ∧
    max 0 ((42 : Int) - 5) ≤ 42 ∧ (42 : Int) < 42 + 6 := by
  have h := highlight_window_bounds
    ⟨"t1", some [⟨some ⟨some [42], some ["amount"]⟩⟩], none, none⟩ [42] 42 42
    (by rfl) (by decide) (by decide) (by decide) (by decide) (by decide)
  exact ⟨h.1, h.2.1, h.2.2 42 (by decide)⟩

/-- Counterexample for C2: the code never fails with `InvalidCitation` on an
empty row set.  When the first evidence range carries a literally empty rows
array, the view still issues a slice fetch (with `offset = Infinity` and
`limit = 1`); when rows are absent at every fallback level, the default row
set `[0]` is silently substituted and a slice fetch for `[0, 6)` is issued. -/
theorem empty_rows_counterexample :
    projectHighlight ⟨"t1", some [⟨some ⟨some [], some ["a"]⟩⟩], none, none⟩ =
      ⟨"t1", JsNum.posInf, JsNum.fin 1, some ["a"]⟩ ∧
    resolveRows ⟨"t0", none, none, none⟩ = [0] ∧
    projectHighlight ⟨"t0", none, none, none⟩ =
      ⟨"t0", JsNum.fin 0, JsNum.fin 6, none⟩ := by
  decide

/-- Claim C2 as amended: the projection is total and never raises
`InvalidCitation`.  When no rows field is present at any fallback level the
constant `[0]` is substituted, and when the resolved rows list is empty a
slice fetch is still issued, with infinite `offset` and `limit` clamped
to 1. -/
theorem empty_rows_fetch (h : Highlight) :
    (firstRangeRows h = none → h.rows = none → resolveRows h = [0]) ∧
    (resolveRows h = [] →
      projectHighlight h = ⟨h.table_id, JsNum.posInf, JsNum.fin 1,
        if (resolveCols h).isEmpty then none else some (resolveCols h)⟩) := by
  constructor
  · intro h1 h2
    unfold resolveRows
    rw [h1, h2]
    rfl
  · intro he
    unfold projectHighlight getSliceReq projWindowFrom projWindowTo
    rw [he]
    cases hc : (resolveCols h).isEmpty <;>
      simp [jsMinList, jsMaxList, jsSubC, jsAddC, jsMaxC, jsSub, hc]

/-- Witness for the amended C2. -/
theorem empty_rows_fetch_witness :
    resolveRows ⟨"t3", none, none, none⟩ = [0] ∧
    projectHighlight ⟨"t2", some [⟨some ⟨some [], none⟩⟩], none, none⟩ =
      ⟨"t2", JsNum.posInf, JsNum.fin 1, none⟩ := by
  refine ⟨(empty_rows_fetch ⟨"t3", none, none, none⟩).1 rfl rfl, ?_⟩
  have h := (empty_rows_fetch ⟨"t2", some [⟨some ⟨some [], none⟩⟩], none, none⟩).2 (by rfl)
  simpa using h

/-- Claim C9: for every table id and every pair of integer bounds, the slice
request computed by `getSlice` carries `offset = max(0, rowFrom)` and
`limit = max(1, rowTo - rowFrom)`, so the requested offset is always
non-negative and the requested row count is always at least 1 — including
for negative `rowFrom` and for `rowTo ≤ rowFrom`. -/
theorem slice_request_clamped (tableId : String) (rowFrom rowTo : Int)
    (cols : Option (List String)) :
    ∃ o l : Int,
      (getSliceReq tableId (.fin rowFrom) (.fin rowTo) cols).offset = JsNum.fin o ∧
      (getSliceReq tableId (.fin rowFrom) (.fin rowTo) cols).limit = JsNum.fin l ∧
      o = max 0 rowFrom ∧ l = max 1 (rowTo - rowFrom) ∧ 0 ≤ o ∧ 1 ≤ l :=
  ⟨max 0 rowFrom, max 1 (rowTo - rowFrom), rfl, rfl, rfl, rfl,
    le_max_left 0 rowFrom, le_max_left 1 (rowTo - rowFrom)⟩

/-- Claim C10: the projected slice fetch depends only on the first evidence
entry (subsequent entries are interchangeable without effect), and when the
first entry supplies no rows the top-level rows field and finally the
constant `[0]` are used as fallbacks. -/
theorem first_evidence_only (tid : String) (e1 : Evidence) (rest rest2 : List Evidence)
    (hrows : Option (List Int)) (hcols : Option (List String)) :
    projectHighlight ⟨tid, some (e1 :: rest), hrows, hcols⟩ =
      projectHighlight ⟨tid, some (e1 :: rest2), hrows, hcols⟩ ∧
    (firstRangeRows ⟨tid, some (e1 :: rest), hrows, hcols⟩ = none →
      resolveRows ⟨tid, some (e1 :: rest), hrows, hcols⟩ = hrows.getD [0]) := by
  constructor
  · have hr : resolveRows ⟨tid, some (e1 :: rest), hrows, hcols⟩ =
        resolveRows ⟨tid, some (e1 :: rest2), hrows, hcols⟩ := by
      simp [resolveRows, firstRangeRows, citationsOf]
    have hc : resolveCols ⟨tid, some (e1 :: rest), hrows, hcols⟩ =
        resolveCols ⟨tid, some (e1 :: rest2), hrows, hcols⟩ := by
      simp [resolveCols, firstRangeCols, citationsOf]
    simp [projectHighlight, projWindowFrom, projWindowTo, hr, hc]
  · intro h0
    unfold resolveRows
    rw [h0]
    rfl

/-- Witness for C10: a first evidence entry with no range forces the `[0]`
fallback even though a later evidence entry carries rows `[9]`. -/
theorem first_evidence_only_witness :
    resolveRows ⟨"t", some [⟨none⟩, ⟨some ⟨some [9], some ["z"]⟩⟩], none, none⟩ = [0] :=
  (first_evidence_only "t" ⟨none⟩ [⟨some ⟨some [9], some ["z"]⟩⟩] [] none none).2 (by rfl)

lemma renderRowsFrom_length (columns : List String) (hlR : List Int)
    (hlC : List String) (off : Int) (i : Nat) (rs : List RowRec) :
    (renderRowsFrom columns hlR hlC off i rs).length = rs.length := by
  induction rs generalizing i with
  | nil => rfl
  | cons r rs ih => simp [renderRowsFrom, ih]

lemma renderRowsFrom_getElem? (columns : List String) (hlR : List Int)
    (hlC : List String) (off : Int) (i k : Nat) (rs : List RowRec) :
    (renderRowsFrom columns hlR hlC off i rs)[k]? =
      (rs[k]?).map (fun r => renderRow columns hlR hlC off (i + k) r) := by
  induction rs generalizing i k with
  | nil => simp [renderRowsFrom]
  | cons r rs ih =>
    cases k with
    | zero => simp [renderRowsFrom]
    | succ k =>
      have harith : i + 1 + k = i + (k + 1) := by omega
      simp [renderRowsFrom, ih (i + 1) k, harith]

lemma dataTable_getElem? (columns : List String) (rows : List RowRec)
    (highlight : Option HighlightSet) (off : Int) (k : Nat) :
    (dataTable columns rows highlight off)[k]? =
      (rows[k]?).map
        (fun r => renderRow columns (hlRowsLocal highlight off) (hlColsOf highlight) off k r) := by
  unfold dataTable
  rw [renderRowsFrom_getElem?]
  simp

lemma contains_local_iff (R : List Int) (off : Int) (i : Nat) :
    (R.map (fun r => r - off)).contains ((i : Int)) = true ↔ ((i : Int) + off) ∈ R := by
  rw [List.elem_iff, List.mem_map]
  constructor
  · rintro ⟨r, hr, he⟩
    have : r = (i : Int) + off := by omega
    rwa [this] at hr
  · intro hmem
    exact ⟨(i : Int) + off, hmem, by omega⟩

/-- Claim C3: in a rendered slice with highlight rows `R`, highlight columns
`C` and row offset `off`, the rendered row at local index `i` (absolute row
`i + off`) is row-highlighted iff `i + off ∈ R`, each of its cells at column
`c` is cell-highlighted iff `i + off ∈ R ∧ c ∈ C`, and when `C` is empty no
cell is highlighted while the row flag is unaffected. -/
theorem cell_marking (columns : List String) (rows : List RowRec) (R : List Int)
    (C : List String) (off : Int) (i : Nat) (rr : RenderedRow)
    (hget : (dataTable columns rows (some ⟨R, C⟩) off)[i]? = some rr) :
    (rr.rowHL = true ↔ ((i : Int) + off) ∈ R) ∧
    (∀ c v b, (c, v, b) ∈ rr.cells → (b = true ↔ (((i : Int) + off) ∈ R ∧ c ∈ C))) ∧
    (C = [] → ∀ c v b, (c, v, b) ∈ rr.cells → b = false) := by
  rw [dataTable_getElem?] at hget
  cases hr : rows[i]? with
  | none =>
    rw [hr] at hget
    cases hget
  | some r =>
    rw [hr] at hget
    simp only [Option.map_some'] at hget
    cases hget
    have hrows : hlRowsLocal (some ⟨R, C⟩) off = R.map (fun x => x - off) := rfl
    have hcols : hlColsOf (some ⟨R, C⟩) = C := rfl
    refine ⟨?_, ?_, ?_⟩
    · simp only [renderRow, hrows]
      exact contains_local_iff R off i
    · intro c v b hmem
      simp only [renderRow, hrows, hcols, List.mem_map] at hmem
      obtain ⟨c2, _, he⟩ := hmem
      injection he with h1 h23
      injection h23 with h2 h3
      subst h1
      subst h3
      rw [Bool.and_eq_true, contains_local_iff R off i]
      have hcc : (C.contains c2 = true) ↔ c2 ∈ C := by simp
      rw [hcc]
    · intro hC c v b hmem
      simp only [renderRow, hrows, hcols, hC, List.mem_map] at hmem
      obtain ⟨c2, _, he⟩ := hmem
      have hb : b = ((R.map (fun x => x - off)).contains ((i : Int)) &&
          ([] : List String).contains c2) := (congrArg (fun p => p.2.2) he).symm
      simp at hb
      exact hb

/-- Witness for C3: in the slice starting at absolute row 4, local row 1
(absolute row 5) is row-highlighted and its `b` cell is cell-highlighted. -/
theorem cell_marking_witness :
    ((RenderedRow.mk 5 true [("a", "u", false), ("b", "", true)]).rowHL = true ↔
      ((1 : Int) + 4) ∈ [(5 : Int)]) ∧
    (true = true ↔ (((1 : Int) + 4) ∈ [(5 : Int)] ∧ "b" ∈ ["b"])) := by
  have h := cell_marking ["a", "b"] [[("a", "x"), ("b", "y")], [("a", "u")]] [5] ["b"] 4 1
    ⟨5, true, [("a", "u", false), ("b", "", true)]⟩ (by decide)
  exact ⟨h.1, h.2.1 "b" "" true (by decide)⟩

/-- Claim C6: rendering is total over short slices — exactly one row is
rendered per returned record, every rendered row shows absolute index
`i + off` with `i` below the returned row count, and a highlight row lying
at or beyond `off + length` matches no rendered row, so its highlight is
silently suppressed and no error is possible. -/
theorem short_slice_unmatched (columns : List String) (rows : List RowRec)
    (R : List Int) (C : List String) (off : Int) :
    (dataTable columns rows (some ⟨R, C⟩) off).length = rows.length ∧
    (∀ (i : Nat) (rr : RenderedRow),
      (dataTable columns rows (some ⟨R, C⟩) off)[i]? = some rr →
      rr.rowIndex = (i : Int) + off ∧ i < rows.length) ∧
    (∀ rAbs, rAbs ∈ R → off + (rows.length : Int) ≤ rAbs →
      ∀ (i : Nat) (rr : RenderedRow),
        (dataTable columns rows (some ⟨R, C⟩) off)[i]? = some rr →
        rr.rowIndex ≠ rAbs) := by
  have hidx : ∀ (i : Nat) (rr : RenderedRow),
      (dataTable columns rows (some ⟨R, C⟩) off)[i]? = some rr →
      rr.rowIndex = (i : Int) + off ∧ i < rows.length := by
    intro i rr hget
    rw [dataTable_getElem?] at hget
    cases hr : rows[i]? with
    | none =>
      rw [hr] at hget
      cases hget
    | some r =>
      rw [hr] at hget
      simp only [Option.map_some'] at hget
      cases hget
      exact ⟨rfl, (List.getElem?_eq_some.mp hr).1⟩
  refine ⟨?_, hidx, ?_⟩
  · unfold dataTable
    exact renderRowsFrom_length columns (hlRowsLocal (some ⟨R, C⟩) off)
      (hlColsOf (some ⟨R, C⟩)) off 0 rows
  · intro rAbs _ hbeyond i rr hget
    obtain ⟨hrr, hlt⟩ := hidx i rr hget
    rw [hrr]
    have : (i : Int) < (rows.length : Int) := by exact_mod_cast hlt
    omega

/-- Witness for C6: a one-row slice at offset 0 whose highlight row 7 lies
beyond the returned row count renders its only row with index 0, not 7. -/
theorem short_slice_unmatched_witness :
    (RenderedRow.mk 0 false [("a", "x", false)]).rowIndex ≠ (7 : Int) :=
  (short_slice_unmatched ["a"] [[("a", "x")]] [7] [] 0).2.2 7 (by decide) (by decide)
    0 ⟨0, false, [("a", "x", false)]⟩ (by decide)

/-- An observation that keeps the polling loop going: a successful status
fetch whose job is neither terminal-success nor in status `error`. -/
def nonTerminalObs (o : Except String Job) : Prop :=
  ∃ j, o = Except.ok j ∧ jobSucceeded j = false ∧ j.status ≠ "error"

/-- The status lines produced by a run of successful non-terminal
observations. -/
def obsStatusMsgs (pre : List (Except String Job)) : List String :=
  pre.filterMap (fun o => match o with
    | .ok j => some (pollStatusMsg j)
    | .error _ => none)

lemma pollTrace_ext (a b : PollTrace) (h1 : a.fetches = b.fetches)
    (h2 : a.refreshes = b.refreshes) (h3 : a.previews = b.previews)
    (h4 : a.statusMsgs = b.statusMsgs) (h5 : a.outcome = b.outcome) : a = b := by
  cases a
  cases b
  simp_all

lemma pollLoop_skip (pre rest : List (Except String Job))
    (hpre : ∀ o ∈ pre, nonTerminalObs o) :
    (pollLoop (pre ++ rest)).fetches = pre.length + (pollLoop rest).fetches ∧
    (pollLoop (pre ++ rest)).refreshes = (pollLoop rest).refreshes ∧
    (pollLoop (pre ++ rest)).previews = (pollLoop rest).previews ∧
    (pollLoop (pre ++ rest)).statusMsgs = obsStatusMsgs pre ++ (pollLoop rest).statusMsgs ∧
    (pollLoop (pre ++ rest)).outcome = (pollLoop rest).outcome := by
  induction pre with
  | nil => simp [obsStatusMsgs]
  | cons o pre ih =>
    obtain ⟨j, rfl, hsucc, herr⟩ := hpre o (List.mem_cons_self o pre)
    have ih2 := ih (fun o2 ho2 => hpre o2 (List.mem_cons_of_mem _ ho2))
    simp only [List.cons_append, List.append_eq, List.length_cons, pollLoop, hsucc, herr,
      obsStatusMsgs, List.filterMap_cons, Bool.false_eq_true, if_false, ite_false] at ih2 ⊢
    refine ⟨?_, ?_, ?_, ?_, ?_⟩
    · rw [ih2.1]
      omega
    · exact ih2.2.1
    · exact ih2.2.2.1
    · rw [ih2.2.2.2.1]
    · exact ih2.2.2.2.2

lemma pollLoop_terminal_drop (job : Job) (post : List (Except String Job))
    (hterm : jobSucceeded job = true ∨ job.status = "error") :
    pollLoop (.ok job :: post) = pollLoop [.ok job] := by
  rcases hterm with h | h
  · simp [pollLoop, h]
  · have hs : jobSucceeded job = false := by
      unfold jobSucceeded
      rw [h]
      rfl
    simp [pollLoop, hs, h]

/-- Claim C4: once the polling loop sees an observation with terminal status
(`done`/`indexing`, or `error`), it issues no further job-status fetch: the
fetch count is exactly the number of preceding non-terminal observations
plus one, and the whole trace is unchanged by whatever observations would
have followed. -/
theorem terminal_stops_polling (pre post : List (Except String Job)) (job : Job)
    (hpre : ∀ o ∈ pre, nonTerminalObs o)
    (hterm : jobSucceeded job = true ∨ job.status = "error") :
    (pollLoop (pre ++ .ok job :: post)).fetches = pre.length + 1 ∧
    pollLoop (pre ++ .ok job :: post) = pollLoop (pre ++ [.ok job]) := by
  have hdrop : pollLoop (.ok job :: post) = pollLoop [.ok job] :=
    pollLoop_terminal_drop job post hterm
  have hfet1 : (pollLoop [Except.ok job]).fetches = 1 := by
    rcases hterm with h | h
    · simp [pollLoop, h]
    · have hs : jobSucceeded job = false := by
        unfold jobSucceeded
        rw [h]
        rfl
      simp [pollLoop, hs, h]
  have h1 := pollLoop_skip pre (.ok job :: post) hpre
  have h2 := pollLoop_skip pre [.ok job] hpre
  constructor
  · rw [h1.1, hdrop, hfet1]
  · refine pollTrace_ext _ _ ?_ ?_ ?_ ?_ ?_
    · rw [h1.1, h2.1, hdrop]
    · rw [h1.2.1, h2.2.1, hdrop]
    · rw [h1.2.2.1, h2.2.2.1, hdrop]
    · rw [h1.2.2.2.1, h2.2.2.2.1, hdrop]
    · rw [h1.2.2.2.2, h2.2.2.2.2, hdrop]

/-- Witness for C4: one non-terminal observation followed by `done` gives
exactly two fetches, although a third observation was available. -/
theorem terminal_stops_polling_witness :
    (pollLoop [.ok ⟨"processing", some 30, none, none⟩,
      .ok ⟨"done", none, none, some "t9"⟩,
      .ok ⟨"queued", none, none, none⟩]).fetches = 2 := by
  have hpre : ∀ o ∈ [Except.ok (⟨"processing", some 30, none, none⟩ : Job)],
      nonTerminalObs o := by
    intro o ho
    rcases List.mem_cons.mp ho with rfl | ho2
    · exact ⟨_, rfl, by decide, by decide⟩
    · cases ho2
  exact (terminal_stops_polling [.ok ⟨"processing", some 30, none, none⟩]
    [.ok ⟨"queued", none, none, none⟩] ⟨"done", none, none, some "t9"⟩
    hpre (Or.inl (by decide))).1

/-- Counterexample for C5: a transient status-fetch failure is not retried.
The very first failed `getJob` call aborts the loop with the error surfaced
(`fetches = 1`), even though the next observation would have reported
`done`. -/
theorem transient_error_counterexample :
    pollLoop [.error "network down", .ok ⟨"done", some 100, none, some "t9"⟩] =
      ⟨1, 0, [], [], .failed "network down"⟩ := by
  rfl

/-- Claim C5 as amended: a transient error (failed job-status fetch) during
polling is never retried — the thrown fetch error escapes the loop to the
surrounding catch and is surfaced immediately as the user-visible error,
after exactly the fetch that failed. -/
theorem transient_error_surfaced (pre post : List (Except String Job)) (e : String)
    (hpre : ∀ o ∈ pre, nonTerminalObs o) :
    (pollLoop (pre ++ .error e :: post)).outcome = .failed e ∧
    (pollLoop (pre ++ .error e :: post)).fetches = pre.length + 1 := by
  have h := pollLoop_skip pre (.error e :: post) hpre
  constructor
  · rw [h.2.2.2.2]
    rfl
  · rw [h.1]
    rfl

/-- Witness for the amended C5. -/
theorem transient_error_surfaced_witness :
    (pollLoop [.error "boom", .ok ⟨"done", none, none, none⟩]).outcome =
      .failed "boom" :=
  (transient_error_surfaced [] [.ok ⟨"done", none, none, none⟩] "boom"
    (fun o ho => absurd ho (List.not_mem_nil o))).1

lemma surfacedErrorMessage_ne_empty (m : Option String) :
    surfacedErrorMessage m ≠ "" := by
  cases m with
  | none => decide
  | some s =>
    by_cases he : s = ""
    · simp only [surfacedErrorMessage, if_pos he]
      decide
    · simp only [surfacedErrorMessage, if_neg he]
      exact he

/-- Counterexample for C7: a job observation with status `error` and a
present but empty message does not surface that message verbatim — the
JavaScript falsiness of `""` makes the default take over. -/
theorem empty_message_counterexample :
    (pollLoop [.ok ⟨"error", none, some "", none⟩]).outcome =
      .failed "Upload failed." ∧
    surfacedErrorMessage (some "") ≠ "" ∧
    (some "" : Option String) ≠ none := by
  refine ⟨by decide, by decide, by decide⟩

/-- Claim C7 as amended: on a job observation with status `error`, polling
stops after that single fetch and the surfaced failure message is always
non-empty; an absent or empty message yields the default `"Upload failed."`,
and a non-empty message is surfaced exactly. -/
theorem error_message_surfaced (job : Job) (rest : List (Except String Job))
    (herr : job.status = "error") :
    (pollLoop (.ok job :: rest)).outcome = .failed (surfacedErrorMessage job.message) ∧
    (pollLoop (.ok job :: rest)).fetches = 1 ∧
    surfacedErrorMessage job.message ≠ "" ∧
    (∀ m, job.message = some m → m ≠ "" → surfacedErrorMessage job.message = m) ∧
    (job.message = none → surfacedErrorMessage job.message = "Upload failed.") := by
  have hs : jobSucceeded job = false := by
    unfold jobSucceeded
    rw [herr]
    rfl
  refine ⟨?_, ?_, surfacedErrorMessage_ne_empty job.message, ?_, ?_⟩
  · simp [pollLoop, hs, herr]
  · simp [pollLoop, hs, herr]
  · intro m hm hne
    rw [hm]
    simp only [surfacedErrorMessage, if_neg hne]
  · intro hm
    rw [hm]
    rfl

/-- Witness for the amended C7: the spec scenario message is surfaced
verbatim. -/
theorem error_message_surfaced_witness :
    (pollLoop [.ok ⟨"error", none, some "bad header row", none⟩]).outcome =
      .failed "bad header row" := by
  have h := error_message_surfaced ⟨"error", none, some "bad header row", none⟩ [] rfl
  have h2 := h.2.2.2.1 "bad header row" rfl (by decide)
  rw [h.1, h2]

/-- Claim C8: when polling reaches a success status (`done`/`indexing`) whose
observation carries a table id, the orchestrator refreshes the table list
once and triggers exactly one preview slice fetch for that table, with
offset 0, limit 50 and no column restriction (the absolute window
`[0, 50)` over all columns). -/
theorem success_triggers_preview (pre post : List (Except String Job))
    (job : Job) (tid : String)
    (hpre : ∀ o ∈ pre, nonTerminalObs o)
    (hsucc : jobSucceeded job = true)
    (htid : job.table_id = some tid) :
    (pollLoop (pre ++ .ok job :: post)).outcome = .success (some tid) ∧
    (pollLoop (pre ++ .ok job :: post)).refreshes = 1 ∧
    (pollLoop (pre ++ .ok job :: post)).previews = [previewReq tid] ∧
    previewReq tid = ⟨tid, JsNum.fin 0, JsNum.fin 50, none⟩ := by
  have h := pollLoop_skip pre (.ok job :: post) hpre
  refine ⟨?_, ?_, ?_, ?_⟩
  · rw [h.2.2.2.2]
    simp [pollLoop, hsucc, htid]
  · rw [h.2.1]
    simp [pollLoop, hsucc]
  · rw [h.2.2.1]
    simp [pollLoop, hsucc, htid]
  · unfold previewReq getSliceReq jsMaxC jsSub
    norm_num

/-- Witness for C8: the spec scenario — two `processing` observations then
`done` with table id `t9` — triggers exactly the preview fetch for `t9`
with window `[0, 50)` and all columns. -/
theorem success_triggers_preview_witness :
    (pollLoop [.ok ⟨"processing", some 30, none, none⟩,
      .ok ⟨"processing", some 70, none, none⟩,
      .ok ⟨"done", none, none, some "t9"⟩]).previews =
      [⟨"t9", JsNum.fin 0, JsNum.fin 50, none⟩] := by
  have hpre : ∀ o ∈ [Except.ok (⟨"processing", some 30, none, none⟩ : Job),
      Except.ok (⟨"processing", some 70, none, none⟩ : Job)], nonTerminalObs o := by
    intro o ho
    rcases List.mem_cons.mp ho with rfl | ho2
    · exact ⟨_, rfl, by decide, by decide⟩
    · rcases List.mem_cons.mp ho2 with rfl | ho3
      · exact ⟨_, rfl, by decide, by decide⟩
      · cases ho3
  have h := success_triggers_preview
    [.ok ⟨"processing", some 30, none, none⟩, .ok ⟨"processing", some 70, none, none⟩]
    [] ⟨"done", none, none, some "t9"⟩ "t9" hpre (by decide) rfl
  exact h.2.2.1.trans (congrArg (fun x => [x]) h.2.2.2)
